import Mathlib

/-!
Verification of the change-detection and versioned-snapshot engine of a
Google Drive scanner (`src/main.py`).  Python strings are embedded as Lean
`String`s; `str.split('.')` and `int(...)` are modelled character-by-character
on `String.data`; Python `dict`s are modelled as association lists with
no-duplicate keys (insertion replaces in place, new keys append, matching
CPython's ordered-dict semantics); Python floats are modelled as rationals,
with `round(x, n)` modelled as exact round-half-to-even on rationals.
-/

namespace DriveScan

/-! ### Python string primitives -/

/-- The ten ASCII digit characters accepted by `int()` (unicode digits are not
modelled; the repository only ever produces ASCII version strings). -/
def isDigitChar (c : Char) : Bool :=
  c = '0' || c = '1' || c = '2' || c = '3' || c = '4' ||
  c = '5' || c = '6' || c = '7' || c = '8' || c = '9'

/-- Numeric value of an ASCII digit character. -/
def digitVal (c : Char) : Nat := c.toNat - 48

/-- The digit character for a value `0 ≤ d ≤ 9`. -/
def digitChar (d : Nat) : Char :=
  if d = 0 then '0' else if d = 1 then '1' else if d = 2 then '2'
  else if d = 3 then '3' else if d = 4 then '4' else if d = 5 then '5'
  else if d = 6 then '6' else if d = 7 then '7' else if d = 8 then '8'
  else '9'

/-- Fuel-driven digit rendering (structural recursion so that the kernel can
evaluate it; `natChars` supplies enough fuel for the recursion to finish). -/
def natCharsAux : Nat → Nat → List Char
  | 0, _ => []
  | fuel + 1, n =>
    if n < 10 then [digitChar n]
    else natCharsAux fuel (n / 10) ++ [digitChar (n % 10)]

/-- Decimal rendering of a natural number, as Python's `str(int)` renders a
non-negative integer (no sign, no leading zeros except for `0` itself). -/
def natChars (n : Nat) : List Char := natCharsAux (n + 1) n


/-- Decimal rendering of an integer, as Python's `str(int)`. -/
def intChars (i : Int) : List Char :=
  if i < 0 then '-' :: natChars i.natAbs else natChars i.toNat

/-- Digit run of `int()` after the first digit: underscores are permitted as
separators but must sit between two digits (CPython grammar). -/
def pyDigitsGo (acc : Nat) : List Char → Option Nat
  | [] => some acc
  | c :: rest =>
    if c = '_' then
      match rest with
      | c2 :: rest2 =>
        if isDigitChar c2 then pyDigitsGo (acc * 10 + digitVal c2) rest2 else none
      | [] => none
    else if isDigitChar c then pyDigitsGo (acc * 10 + digitVal c) rest else none

/-- The unsigned-digit part of Python's `int()` (must start with a digit). -/
def pyDigits : List Char → Option Nat
  | [] => none
  | c :: rest => if isDigitChar c then pyDigitsGo (digitVal c) rest else none

/-- Strip leading and trailing whitespace, as `int()` does before parsing. -/
def stripWs (l : List Char) : List Char :=
  ((l.dropWhile Char.isWhitespace).reverse.dropWhile Char.isWhitespace).reverse

/-- Sign-and-digit part of `int()`, applied after whitespace stripping. -/
def pyIntCore : List Char → Option Int
  | [] => none
  | c :: rest =>
    if c = '+' then (pyDigits rest).map (fun n => (n : Int))
    else if c = '-' then (pyDigits rest).map (fun n => -(n : Int))
    else (pyDigits (c :: rest)).map (fun n => (n : Int))

/-- Python's `int(str)`: strip whitespace, optional sign, decimal digits;
returns `none` where CPython raises `ValueError`. -/
def pyInt? (l : List Char) : Option Int :=
  pyIntCore (stripWs l)

/-- Python's `str.split(sep)` for a one-character separator. -/
def splitOnChar (c : Char) : List Char → List (List Char)
  | [] => [[]]
  | x :: xs =>
    if x = c then [] :: splitOnChar c xs
    else (x :: (splitOnChar c xs).headD []) :: (splitOnChar c xs).tail

/-! ### Version Manager (`increment_version`, lines 309–327) -/

/-- `current_version.split('.')` followed by `map(int, ...)` and a 3-way
unpacking; `none` where CPython raises `ValueError` (wrong number of
components or a non-numeric component). -/
def parseVersion (s : String) : Option (Int × Int × Int) :=
  match splitOnChar '.' s.data with
  | [a, b, c] =>
    match pyInt? a, pyInt? b, pyInt? c with
    | some x, some y, some z => some (x, y, z)
    | _, _, _ => none
  | _ => none

/-- The f-string `f"{major}.{minor}.{patch}"`. -/
def formatVersion (a b c : Int) : String :=
  ⟨intChars a ++ '.' :: intChars b ++ '.' :: intChars c⟩

/-- `increment_version` (lines 309–327): bump the patch with carry when there
are changes; keep the version verbatim when there are none; fall back to
`"1.0.1"` when the previous version fails to parse. -/
def increment_version (current_version : String) (has_changes : Bool) : String :=
  if !has_changes then current_version
  else
    match parseVersion current_version with
    | some (major, minor, patch) =>
      let patch := patch + 1
      if patch > 9 then
        let minor := minor + 1
        if minor > 9 then formatVersion (major + 1) 0 0
        else formatVersion major minor 0
      else formatVersion major minor patch
    | none => "1.0.1"

/-- Value of a digit run, accumulated left to right exactly as `pyDigitsGo`. -/
def digitsVal (acc : Nat) (l : List Char) : Nat :=
  l.foldl (fun a c => a * 10 + digitVal c) acc

/-! ### Scan tree data model (output of `get_folder_tree`, lines 387–508) -/

/-- The `sizeDistribution` histogram of a folder node. -/
structure SizeDist where
  small : Nat
  medium : Nat
  large : Nat
  huge : Nat
deriving DecidableEq

/-- The dict produced by `format_file_size` (lines 337–345); Python floats are
modelled as rationals. -/
structure FmtSize where
  bytes : Int
  kb : ℚ
  mb : ℚ
  gb : ℚ
deriving DecidableEq

/-- A node of the scanned tree: the dicts appended to `children` in
`get_folder_tree` (folder dict, lines 429–442; file dict, lines 484–494).
The `fileTypes` histogram dict is modelled as a total count function. -/
inductive DNode where
  | folder (name id driveLink description : String)
      (fileCount folderCount : Nat) (totalSizeMB : ℚ) (lastUpdated : String)
      (children : List DNode) (fileTypes : String → Nat)
      (sizeDistribution : SizeDist)
  | file (name id mimeType category : String) (size : FmtSize)
      (driveLink : String) (modifiedTime createdTime : String)

/-! ### Fingerprint Extractor (`extract_file_signatures`, lines 165–183) -/

/-- The per-file record stored in the signature map (lines 174–179).  The
`signature` md5 hex digest is omitted from the model: `detect_changes` never
reads it (it compares `name`, `size` and `modified` directly), and a
cryptographic hash has no shallow embedding. -/
structure Sig where
  name : String
  size : Int
  modified : String
deriving DecidableEq

/-- Python `dict` lookup on the association-list model. -/
def lookupId (id : String) : List (String × Sig) → Option Sig
  | [] => none
  | (k, v) :: rest => if k = id then some v else lookupId id rest

/-- Python `dict` assignment `signatures[id] = ...`: replaces in place when
the key is present, appends otherwise (CPython ordered-dict semantics). -/
def dictInsert (sigs : List (String × Sig)) (k : String) (v : Sig) :
    List (String × Sig) :=
  if (lookupId k sigs).isSome then
    sigs.map (fun p => if p.1 = k then (k, v) else p)
  else sigs ++ [(k, v)]

/-- The recursion of `extract_file_signatures`: walk the `children` list,
inserting a signature for each file and recursing into each folder, sharing
one accumulating dict. -/
def extractGo : List (String × Sig) → List DNode → List (String × Sig)
  | sigs, [] => sigs
  | sigs, DNode.file name id _ _ size _ modifiedTime _ :: rest =>
    extractGo (dictInsert sigs id ⟨name, size.bytes, modifiedTime⟩) rest
  | sigs, DNode.folder _ _ _ _ _ _ _ _ children _ _ :: rest =>
    extractGo (extractGo sigs children) rest

/-- `extract_file_signatures` (lines 165–183), taking the `children` list of
the folder dict it is given. -/
def extract_file_signatures (tree_children : List DNode) : List (String × Sig) :=
  extractGo [] tree_children

/-! ### Diff Engine (`detect_changes`, lines 185–261) -/

/-- Element of `added_files` / `deleted_files` (lines 201–205, 210–214). -/
structure FileRef where
  id : String
  name : String
  size : Int
deriving DecidableEq

/-- Element of `modified_files` (lines 236–245). -/
structure ModifiedEntry where
  id : String
  name : String
  old_name : String
  old_modified : String
  new_modified : String
  old_size : Int
  new_size : Int
  change_type : String
deriving DecidableEq

/-- The `changes` dict built by `detect_changes` (lines 190–196). -/
structure ChangeSet where
  added_files : List FileRef
  deleted_files : List FileRef
  modified_files : List ModifiedEntry
  total_changes : Nat
  summary : String
deriving DecidableEq

/-- `detect_changes` (lines 185–261): flatten the current tree to a signature
map and diff it against the previous signature map. -/
def detect_changes (current_children : List DNode)
    (previous_sigs : List (String × Sig)) : ChangeSet :=
  let current_sigs := extract_file_signatures current_children
  let added_files := (current_sigs.filter
      (fun p => (lookupId p.1 previous_sigs).isNone)).map
      (fun p => { id := p.1, name := p.2.name, size := p.2.size : FileRef })
  let deleted_files := (previous_sigs.filter
      (fun p => (lookupId p.1 current_sigs).isNone)).map
      (fun p => { id := p.1, name := p.2.name, size := p.2.size : FileRef })
  let modified_files := current_sigs.filterMap (fun p =>
      match lookupId p.1 previous_sigs with
      | none => none
      | some prev =>
        let name_changed := p.2.name != prev.name
        let size_changed := p.2.size != prev.size
        let time_changed := p.2.modified != prev.modified
        if name_changed || size_changed || time_changed then
          some { id := p.1, name := p.2.name, old_name := prev.name,
                 old_modified := prev.modified, new_modified := p.2.modified,
                 old_size := prev.size, new_size := p.2.size,
                 change_type := String.intercalate ", "
                   ((if name_changed then ["renamed"] else []) ++
                    (if size_changed then ["resized"] else []) ++
                    (if time_changed then ["modified"] else [])) }
        else none)
  let total_changes :=
    added_files.length + deleted_files.length + modified_files.length
  let summary_parts :=
    (if added_files.isEmpty then []
     else [toString added_files.length ++ " files added"]) ++
    (if deleted_files.isEmpty then []
     else [toString deleted_files.length ++ " files deleted"]) ++
    (if modified_files.isEmpty then []
     else [toString modified_files.length ++ " files modified"])
  { added_files := added_files
    deleted_files := deleted_files
    modified_files := modified_files
    total_changes := total_changes
    summary := if summary_parts.isEmpty then "No changes detected"
               else String.intercalate ", " summary_parts }

/-- Spec-side definition of the *unchanged* entries: common ids whose name,
size and modified time all agree (the complement of `modified_files` among
the common ids). -/
def unchangedSigs (current_sigs previous_sigs : List (String × Sig)) :
    List (String × Sig) :=
  current_sigs.filter (fun p =>
    match lookupId p.1 previous_sigs with
    | some q => p.2.name == q.name && p.2.size == q.size &&
        p.2.modified == q.modified
    | none => false)

/-! ### Version Manager history (`save_version_history`, lines 274–307) -/

/-- The `stats` dict of a version-history entry (lines 559–564). -/
structure ScanStats where
  totalFiles : Nat
  totalFolders : Nat
  totalSizeMB : ℚ
deriving DecidableEq

/-- A version-history entry.  Optional fields model Python dict keys that may
be absent (`current_version` / `n_version` are the legacy key variants the
merge normalizes away, lines 281–285). -/
structure HistEntry where
  version : Option String
  current_version : Option String
  n_version : Option String
  scanner_version : Option String
  scan_date : String
  changes : Option ChangeSet
  stats : Option ScanStats
deriving DecidableEq

/-- The legacy-key normalization applied to every loaded entry
(lines 281–285): `entry["version"] = entry.pop("current_version")`, else the
same for `n_version`. -/
def normalizeEntry (e : HistEntry) : HistEntry :=
  if e.current_version.isSome then
    { e with version := e.current_version, current_version := none }
  else if e.n_version.isSome then
    { e with version := e.n_version, n_version := none }
  else e

/-- `new_entry.get("changes", {}).get("total_changes", 0)` (line 288). -/
def totalChangesOf (e : HistEntry) : Nat :=
  (e.changes.map (fun c => c.total_changes)).getD 0

/-- `save_version_history` (lines 274–307) without the I/O: normalize legacy
version keys; if the new entry carries no changes and the history is
non-empty, refresh the head's `scan_date` (and `stats` when present) in
place, otherwise insert the new entry at the front; finally truncate to 50
entries.  The Python `if total == 0 and history:` branch pair is written as
one match on the (normalized) history. -/
def save_version_history (history : List HistEntry) (new_entry : HistEntry) :
    List HistEntry :=
  let history := history.map normalizeEntry
  let history :=
    match history with
    | h :: t =>
      if totalChangesOf new_entry = 0 then
        { h with
          scan_date := new_entry.scan_date,
          stats := if new_entry.stats.isSome then new_entry.stats
                   else h.stats } :: t
      else new_entry :: history
    | [] => new_entry :: history
  if history.length > 50 then history.take 50 else history

/-! ### Retry policy (`make_api_call_with_retry`, lines 347–369) -/

/-- Outcome of one attempt of a remote call: success, HTTP 429 (rate limit),
HTTP 403 (permission denied), another `HttpError`, or another exception. -/
inductive ApiOutcome (R : Type) where
  | success (r : R)
  | rateLimit
  | forbidden
  | httpError (msg : String)
  | exc (msg : String)
deriving DecidableEq

/-- What `make_api_call_with_retry` does as seen by its caller: return a
value (`ok (some r)`), return `None` (`ok none`), or raise. -/
inductive CallResult (R : Type) where
  | ok (r : Option R)
  | raised (msg : String)
deriving DecidableEq

/-- Whether a call result is a raised exception. -/
def isRaised {R : Type} : CallResult R → Bool
  | .raised _ => true
  | .ok _ => false

/-- The failure kinds that consume the retry budget and raise at the end
(`HttpError` other than 429/403, and any other exception). -/
def isRetryableFailure {R : Type} : ApiOutcome R → Bool
  | .httpError _ => true
  | .exc _ => true
  | _ => false

/-- The `for attempt in range(maxRetries)` loop of
`make_api_call_with_retry` (lines 347–369).  `f attempt` is the outcome of
attempt number `attempt`; `remaining` counts the iterations left
(`maxRetries - attempt`), so `remaining = 0` models falling off the end of
the loop, which in Python returns the implicit `None`.  The second component
counts the attempts actually made.  A 429 sleeps and `continue`s with no
last-attempt check; a 403 records the error and returns `None`; other
failures re-raise on the last attempt and otherwise sleep and retry. -/
def retryGo {R : Type} (f : Nat → ApiOutcome R) :
    Nat → Nat → CallResult R × Nat
  | 0, _ => (.ok none, 0)
  | remaining + 1, attempt =>
    match f attempt with
    | .success r => (.ok (some r), 1)
    | .rateLimit =>
      let p := retryGo f remaining (attempt + 1)
      (p.1, p.2 + 1)
    | .forbidden => (.ok none, 1)
    | .httpError m =>
      if remaining = 0 then (.raised ("API Error: " ++ m), 1)
      else
        let p := retryGo f remaining (attempt + 1)
        (p.1, p.2 + 1)
    | .exc m =>
      if remaining = 0 then (.raised ("Unexpected error: " ++ m), 1)
      else
        let p := retryGo f remaining (attempt + 1)
        (p.1, p.2 + 1)

/-- `make_api_call_with_retry` over an attempt-outcome oracle `f`. -/
def make_api_call_with_retry {R : Type} (maxRetries : Nat)
    (f : Nat → ApiOutcome R) : CallResult R × Nat :=
  retryGo f maxRetries 0

/-- `get_folder_description` (lines 376–385): fetch the folder metadata with
the retry policy; `meta.get('description', '') if meta else ''`, and any
exception is swallowed into the empty string.  `R = Option String` models
the metadata dict with its optional `description` field. -/
def get_folder_description (maxRetries : Nat)
    (f : Nat → ApiOutcome (Option String)) : String :=
  match (make_api_call_with_retry maxRetries f).1 with
  | .ok (some meta) => meta.getD ""
  | .ok none => ""
  | .raised _ => ""

/-! ### Tree Scanner (`get_folder_tree`, lines 387–508) -/

/-- Python's `round(x, 2)` on rationals: round half to even at two decimal
places (floats are modelled exactly by rationals, so the binary-float
artefacts of CPython's `round` are not reproduced, only its stated
round-half-even rule). -/
def roundHalfEven (q : ℚ) : Int :=
  let f : Int := ⌊q⌋
  let r : ℚ := q - f
  if r < 1/2 then f
  else if 1/2 < r then f + 1
  else if f % 2 = 0 then f else f + 1

/-- `round(q, 2)`. -/
def round2 (q : ℚ) : ℚ := (roundHalfEven (q * 100) : ℚ) / 100

/-- `round(q, 4)`. -/
def round4 (q : ℚ) : ℚ := (roundHalfEven (q * 10000) : ℚ) / 10000

/-- The `FILE_CATEGORIES` mapping table (lines 54–84), in source order. -/
def FILE_CATEGORIES : List (String × List String) :=
  [("documents",
    ["application/pdf",
     "application/vnd.google-apps.document",
     "application/msword",
     "application/vnd.openxmlformats-officedocument.wordprocessingml.document",
     "text/plain"]),
   ("spreadsheets",
    ["application/vnd.google-apps.spreadsheet",
     "application/vnd.ms-excel",
     "application/vnd.openxmlformats-officedocument.spreadsheetml.sheet"]),
   ("presentations",
    ["application/vnd.google-apps.presentation",
     "application/vnd.ms-powerpoint",
     "application/vnd.openxmlformats-officedocument.presentationml.presentation"]),
   ("images",
    ["image/jpeg", "image/png", "image/gif", "image/bmp", "image/svg+xml"]),
   ("videos",
    ["video/mp4", "video/avi", "video/mkv", "video/mov", "video/wmv"]),
   ("audio",
    ["audio/mp3", "audio/wav", "audio/flac", "audio/aac"]),
   ("archives",
    ["application/zip", "application/x-rar-compressed",
     "application/x-7z-compressed"])]

/-- `categorize_file` (lines 329–335): first matching category in table
order, `others` for an empty or unmapped MIME type. -/
def categorize_file (mime_type : String) : String :=
  if mime_type = "" then "others"
  else
    match FILE_CATEGORIES.find? (fun p => p.2.contains mime_type) with
    | some p => p.1
    | none => "others"

/-- `format_file_size` (lines 337–345): `None` is treated as 0 bytes. -/
def format_file_size (size_bytes : Option Int) : FmtSize :=
  let sb : Int := match size_bytes with | none => 0 | some n => n
  { bytes := sb
    kb := round2 ((sb : ℚ) / 1024)
    mb := round2 ((sb : ℚ) / (1024 * 1024))
    gb := round4 ((sb : ℚ) / (1024 * 1024 * 1024)) }

/-- `safe_datetime_format` (lines 371–374): `None` or the empty string give
`"N/A"`, otherwise strip `T`, `Z` and `.000`. -/
def safe_datetime_format (dt : Option String) : String :=
  match dt with
  | none => "N/A"
  | some s =>
    if s = "" then "N/A"
    else ((s.replace "T" " ").replace "Z" "").replace ".000" ""

/-- Python's `a or b` on optional strings (`None` and `""` are falsy). -/
def pyOrStr (a b : Option String) : Option String :=
  match a with
  | some s => if s = "" then b else some s
  | none => b

/-- Python's `max` on two strings (returns the first argument on ties). -/
def pyMaxStr (a b : String) : String := if a < b then b else a

/-- `max(folder_stats['lastModified'] or t, t)` (lines 455 and 481). -/
def watermarkUpdate (acc : Option String) (t : String) : Option String :=
  some (pyMaxStr (match acc with
    | none => t
    | some s => if s = "" then t else s) t)

/-- The watermark step for a subfolder (lines 454–455): only a truthy
`lastUpdated` different from `"N/A"` updates the watermark. -/
def folderWatermark (acc : Option String) (lu : String) : Option String :=
  if lu ≠ "" ∧ lu ≠ "N/A" then watermarkUpdate acc lu else acc

/-- The watermark step for a file (lines 478–481): only a truthy
`modifiedTime or createdTime` updates the watermark, with the formatted
timestamp. -/
def fileWatermark (acc : Option String) (modified : Option String) :
    Option String :=
  match modified with
  | some s =>
    if s ≠ "" then watermarkUpdate acc (safe_datetime_format (some s)) else acc
  | none => acc

/-- A remote directory entry as the Drive API returns it.  A `rfolder` is an
entry whose `mimeType` is the folder MIME type, carrying the listing the
recursive `files().list` calls produce for it (the pagination loop
concatenates the pages, so the model holds the concatenated listing) and the
description the best-effort metadata fetch yields.  `size = none` models an
absent or null size field (`int(item.get('size', 0) or 0)` maps both, and an
empty string, to 0). -/
inductive RItem where
  | rfolder (id name description : String) (listing : List RItem)
  | rfile (id name mimeType : String) (size : Option Int)
      (modifiedTime createdTime webViewLink : Option String)

/-- The `folder_stats` accumulator of `get_folder_tree` (lines 394–406). -/
structure FolderStats where
  totalSizeMB : ℚ
  fileCount : Nat
  folderCount : Nat
  lastModified : Option String
  fileTypes : String → Nat
  sizeDistribution : SizeDist

/-- The dict `get_folder_tree` returns (lines 500–508). -/
structure FolderData where
  fileCount : Nat
  folderCount : Nat
  totalSizeMB : ℚ
  lastUpdated : String
  children : List DNode
  fileTypes : String → Nat
  sizeDistribution : SizeDist

/-- The initial `folder_stats` (lines 394–406). -/
def initStats : FolderStats :=
  { totalSizeMB := 0, fileCount := 0, folderCount := 0, lastModified := none,
    fileTypes := fun _ => 0, sizeDistribution := ⟨0, 0, 0, 0⟩ }

/-- Merging a subtree's `sizeDistribution` into the accumulator
(lines 451–452). -/
def addDist (a b : SizeDist) : SizeDist :=
  ⟨a.small + b.small, a.medium + b.medium, a.large + b.large, a.huge + b.huge⟩

/-- The size bucketing of one file (lines 464–471). -/
def bumpDist (d : SizeDist) (size_mb : ℚ) : SizeDist :=
  if size_mb < 1 then { d with small := d.small + 1 }
  else if size_mb < 10 then { d with medium := d.medium + 1 }
  else if size_mb < 100 then { d with large := d.large + 1 }
  else { d with huge := d.huge + 1 }

/-- The final dict built from the accumulated stats (lines 500–508). -/
def finalizeStats (stats : FolderStats) (children : List DNode) : FolderData :=
  { fileCount := stats.fileCount
    folderCount := stats.folderCount
    totalSizeMB := round2 stats.totalSizeMB
    lastUpdated := match stats.lastModified with
      | none => "N/A"
      | some s => if s = "" then "N/A" else s
    children := children
    fileTypes := stats.fileTypes
    sizeDistribution := stats.sizeDistribution }

/-- `int(item.get('size', 0) or 0)` (line 461): an absent, null or falsy
size is 0 bytes. -/
def sizeBytesOf (size : Option Int) : Int :=
  match size with
  | none => 0
  | some n => n

/-- The item loop of `get_folder_tree` (lines 421–494), processing the
listing left to right while accumulating `folder_stats` and `children`.
The process-wide `self.stats` instrumentation counters are not modelled. -/
def scanGo (stats : FolderStats) (children : List DNode) :
    List RItem → FolderData
  | [] => finalizeStats stats children
  | RItem.rfolder fid fname desc sub :: rest =>
    let subtree := scanGo initStats [] sub
    let node := DNode.folder fname fid
      ("https://drive.google.com/drive/folders/" ++ fid) desc
      subtree.fileCount subtree.folderCount subtree.totalSizeMB
      subtree.lastUpdated subtree.children subtree.fileTypes
      subtree.sizeDistribution
    let stats' : FolderStats :=
      { totalSizeMB := stats.totalSizeMB + subtree.totalSizeMB
        fileCount := stats.fileCount + subtree.fileCount
        folderCount := stats.folderCount + 1 + subtree.folderCount
        lastModified := folderWatermark stats.lastModified subtree.lastUpdated
        fileTypes := fun c => stats.fileTypes c + subtree.fileTypes c
        sizeDistribution :=
          addDist stats.sizeDistribution subtree.sizeDistribution }
    scanGo stats' (children ++ [node]) rest
  | RItem.rfile fid fname mt size mtime ctime link :: rest =>
    let size_bytes : Int := sizeBytesOf size
    let size_mb : ℚ := (size_bytes : ℚ) / (1024 * 1024)
    let file_type := categorize_file mt
    let modified := pyOrStr mtime ctime
    let node := DNode.file fname fid mt file_type
      (format_file_size (some size_bytes))
      (link.getD ("https://drive.google.com/file/d/" ++ fid ++ "/view"))
      (safe_datetime_format modified)
      (safe_datetime_format (some (ctime.getD "")))
    let stats' : FolderStats :=
      { totalSizeMB := stats.totalSizeMB + size_mb
        fileCount := stats.fileCount + 1
        folderCount := stats.folderCount
        lastModified := fileWatermark stats.lastModified modified
        fileTypes := fun c => if c = file_type then stats.fileTypes c + 1
                              else stats.fileTypes c
        sizeDistribution := bumpDist stats.sizeDistribution size_mb }
    scanGo stats' (children ++ [node]) rest

/-- `get_folder_tree` on a folder's (page-concatenated) listing. -/
def get_folder_tree (listing : List RItem) : FolderData :=
  scanGo initStats [] listing

/-! ### Spec-side aggregation over the children of a node (the fold the
aggregation invariant compares the stored fields against) -/

/-- Contribution of one child node to its parent's `fileCount`. -/
def nodeFileCount : DNode → Nat
  | .folder _ _ _ _ fc _ _ _ _ _ _ => fc
  | .file _ _ _ _ _ _ _ _ => 1

/-- Contribution of one child node to its parent's `folderCount` (a folder
child counts itself plus its own `folderCount`). -/
def nodeFolderCount : DNode → Nat
  | .folder _ _ _ _ _ foc _ _ _ _ _ => 1 + foc
  | .file _ _ _ _ _ _ _ _ => 0

/-- Contribution of one child node to its parent's accumulated size in MB
(a folder child contributes its stored rounded `totalSizeMB`, a file child
its exact byte size divided by 2^20, as the loop does). -/
def nodeSizeMB : DNode → ℚ
  | .folder _ _ _ _ _ _ ts _ _ _ _ => ts
  | .file _ _ _ _ sz _ _ _ => (sz.bytes : ℚ) / (1024 * 1024)

/-- Contribution of one child node to the category histogram. -/
def nodeTypes : DNode → String → Nat
  | .folder _ _ _ _ _ _ _ _ _ ft _ => ft
  | .file _ _ _ cat _ _ _ _ => fun c => if c = cat then 1 else 0

/-- Contribution of one child node to the size-bucket histogram. -/
def nodeDist : DNode → SizeDist
  | .folder _ _ _ _ _ _ _ _ _ _ sd => sd
  | .file _ _ _ _ sz _ _ _ => bumpDist ⟨0, 0, 0, 0⟩ ((sz.bytes : ℚ) / (1024 * 1024))

/-- Fold of `fileCount` over a children list. -/
def aggFileCount (ns : List DNode) : Nat := (ns.map nodeFileCount).sum

/-- Fold of `folderCount` over a children list. -/
def aggFolderCount (ns : List DNode) : Nat := (ns.map nodeFolderCount).sum

/-- Fold of the size in MB over a children list. -/
def aggSizeMB (ns : List DNode) : ℚ := (ns.map nodeSizeMB).sum

/-- Fold of the category histogram over a children list. -/
def aggTypes (ns : List DNode) (c : String) : Nat :=
  (ns.map (fun n => nodeTypes n c)).sum

/-- Fold of the size-bucket histogram over a children list. -/
def aggDist : List DNode → SizeDist
  | [] => ⟨0, 0, 0, 0⟩
  | n :: rest => addDist (nodeDist n) (aggDist rest)

mutual

/-- The aggregation invariant at one node: a folder's stored aggregates
equal the fold over its own children, recursively at every depth; files
carry no aggregates. -/
def aggInvariant : DNode → Prop
  | .folder _ _ _ _ fc foc ts _ ch ft sd =>
    fc = aggFileCount ch ∧ foc = aggFolderCount ch ∧
    ts = round2 (aggSizeMB ch) ∧ (∀ c, ft c = aggTypes ch c) ∧
    sd = aggDist ch ∧ aggInvariantList ch
  | .file _ _ _ _ _ _ _ _ => True

/-- The aggregation invariant over a list of nodes. -/
def aggInvariantList : List DNode → Prop
  | [] => True
  | n :: rest => aggInvariant n ∧ aggInvariantList rest

end

/-! ### Concrete sample inputs for the witnesses -/

/-- A sample scanned tree: file `A` at the root, file `B` inside a
subfolder. -/
def sampleTree : List DNode :=
  [DNode.file "a.txt" "A" "text/plain" "documents" ⟨100, 1/10, 0, 0⟩ "l1"
     "2024-01-01 00:00:00" "2024-01-01 00:00:00",
   DNode.folder "Sub" "F1" "l2" "" 1 0 0 "N/A"
     [DNode.file "b.txt" "B" "text/plain" "documents" ⟨5, 0, 0, 0⟩ "l3"
        "t2" "t2"]
     (fun _ => 0) ⟨2, 0, 0, 0⟩]

/-- A sample previous signature map: `A` unchanged, `C` since deleted. -/
def samplePrev : List (String × Sig) :=
  [("A", ⟨"a.txt", 100, "2024-01-01 00:00:00"⟩),
   ("C", ⟨"c.txt", 7, "t0"⟩)]

/-- A history entry carrying the legacy `current_version` key. -/
def legacyEntry : HistEntry :=
  { version := none, current_version := some "1.0.2", n_version := none,
    scanner_version := none, scan_date := "2026-01-01", changes := none,
    stats := none }

/-- A new entry whose change set is empty (a no-op scan). -/
def zeroEntry : HistEntry :=
  { version := some "1.0.2", current_version := none, n_version := none,
    scanner_version := some "1.0.0", scan_date := "2026-02-02",
    changes := some { added_files := [], deleted_files := [],
                      modified_files := [], total_changes := 0,
                      summary := "No changes detected" },
    stats := none }

/-- A new entry whose change set records one added file. -/
def oneChangeEntry : HistEntry :=
  { version := some "1.0.3", current_version := none, n_version := none,
    scanner_version := some "1.0.0", scan_date := "2026-03-03",
    changes := some { added_files := [⟨"B", "b.txt", 5⟩],
                      deleted_files := [], modified_files := [],
                      total_changes := 1, summary := "1 files added" },
    stats := some ⟨2, 1, 1/10⟩ }

/-! ### Supporting lemmas -/

theorem natCharsAux_irrel :
    ∀ fuel fuel' n, n < fuel → n < fuel' →
      natCharsAux fuel n = natCharsAux fuel' n := by
  intro fuel
  induction fuel with
  | zero => omega
  | succ f ih =>
    intro fuel' n hf hf'
    cases fuel' with
    | zero => omega
    | succ f' =>
      simp only [natCharsAux]
      split
      · rfl
      · next h10 =>
        rw [ih f' (n / 10) (by omega) (by omega)]

/-- The recursion `natChars` implements. -/
theorem natChars_eq (n : Nat) : natChars n =
    if n < 10 then [digitChar n]
    else natChars (n / 10) ++ [digitChar (n % 10)] := by
  show natCharsAux (n + 1) n = _
  simp only [natCharsAux]
  split
  · rfl
  · next h10 =>
    rw [natCharsAux_irrel n (n / 10 + 1) (n / 10) (by omega) (by omega)]
    rfl

/-! ### Lemmas: digit rendering round-trips through `int()` -/

theorem isDigitChar_digitChar {d : Nat} (h : d < 10) :
    isDigitChar (digitChar d) = true := by
  interval_cases d <;> decide

theorem digitVal_digitChar {d : Nat} (h : d < 10) : digitVal (digitChar d) = d := by
  interval_cases d <;> decide

theorem natChars_ne_nil (n : Nat) : natChars n ≠ [] := by
  rw [natChars_eq]
  split
  · simp
  · simp

theorem natChars_all_digits (n : Nat) : ∀ c ∈ natChars n, isDigitChar c = true := by
  induction n using Nat.strong_induction_on with
  | _ n ih =>
    rw [natChars_eq]
    split
    · next h =>
      intro c hc
      simp only [List.mem_singleton] at hc
      subst hc
      exact isDigitChar_digitChar h
    · next h =>
      intro c hc
      rcases List.mem_append.mp hc with h1 | h2
      · exact ih (n / 10) (Nat.div_lt_self (by omega) (by omega)) c h1
      · simp only [List.mem_singleton] at h2
        subst h2
        exact isDigitChar_digitChar (Nat.mod_lt _ (by omega))

theorem digit_not_underscore {c : Char} (h : isDigitChar c = true) : c ≠ '_' := by
  intro he; subst he; simp [isDigitChar] at h

theorem digit_not_plus {c : Char} (h : isDigitChar c = true) : c ≠ '+' := by
  intro he; subst he; simp [isDigitChar] at h

theorem digit_not_minus {c : Char} (h : isDigitChar c = true) : c ≠ '-' := by
  intro he; subst he; simp [isDigitChar] at h

theorem digit_not_dot {c : Char} (h : isDigitChar c = true) : c ≠ '.' := by
  intro he; subst he; simp [isDigitChar] at h

theorem digit_not_ws {c : Char} (h : isDigitChar c = true) :
    c.isWhitespace = false := by
  simp only [isDigitChar, Bool.or_eq_true, decide_eq_true_eq] at h
  rcases h with ((((((((h | h) | h) | h) | h) | h) | h) | h) | h) | h <;>
    subst h <;> decide


theorem pyDigitsGo_all_digits (l : List Char) :
    ∀ acc, (∀ c ∈ l, isDigitChar c = true) →
      pyDigitsGo acc l = some (digitsVal acc l) := by
  induction l with
  | nil => intro acc _; simp [pyDigitsGo, digitsVal]
  | cons c rest ih =>
    intro acc hall
    have hc : isDigitChar c = true := hall c (List.mem_cons_self _ _)
    rw [pyDigitsGo.eq_def]
    simp only [digit_not_underscore hc, if_false, hc, if_true]
    rw [ih _ (fun x hx => hall x (List.mem_cons_of_mem _ hx))]
    rfl

theorem pyDigits_all_digits (c : Char) (rest : List Char)
    (hall : ∀ x ∈ c :: rest, isDigitChar x = true) :
    pyDigits (c :: rest) = some (digitsVal 0 (c :: rest)) := by
  have hc : isDigitChar c = true := hall c (List.mem_cons_self _ _)
  rw [pyDigits, if_pos hc,
    pyDigitsGo_all_digits rest _ (fun x hx => hall x (List.mem_cons_of_mem _ hx))]
  simp [digitsVal]

theorem digitsVal_append (acc : Nat) (l1 l2 : List Char) :
    digitsVal acc (l1 ++ l2) = digitsVal (digitsVal acc l1) l2 := by
  simp [digitsVal, List.foldl_append]

theorem digitsVal_natChars (n : Nat) : ∀ acc, digitsVal acc (natChars n) =
    acc * 10 ^ (natChars n).length + n := by
  induction n using Nat.strong_induction_on with
  | _ n ih =>
    intro acc
    rw [natChars_eq]
    split
    · next h =>
      simp [digitsVal, digitVal_digitChar h]
    · next h =>
      rw [digitsVal_append, ih (n / 10) (Nat.div_lt_self (by omega) (by omega)) acc]
      have hlen : (natChars (n / 10) ++ [digitChar (n % 10)]).length =
          (natChars (n / 10)).length + 1 := by simp
      rw [hlen]
      simp only [digitsVal, List.foldl_cons, List.foldl_nil,
        digitVal_digitChar (Nat.mod_lt n (by omega))]
      have := Nat.div_add_mod n 10
      ring_nf
      omega

theorem pyDigits_natChars (n : Nat) : pyDigits (natChars n) = some n := by
  obtain ⟨c, rest, hcr⟩ : ∃ c rest, natChars n = c :: rest := by
    cases h : natChars n with
    | nil => exact absurd h (natChars_ne_nil n)
    | cons c rest => exact ⟨c, rest, rfl⟩
  have hall := natChars_all_digits n
  rw [hcr] at hall ⊢
  rw [pyDigits_all_digits c rest hall]
  have := digitsVal_natChars n 0
  rw [hcr] at this
  simp [this]

theorem stripWs_no_ws (l : List Char) (h : ∀ c ∈ l, c.isWhitespace = false) :
    stripWs l = l := by
  unfold stripWs
  have h1 : l.dropWhile Char.isWhitespace = l := by
    cases l with
    | nil => rfl
    | cons c rest =>
      rw [List.dropWhile_cons, if_neg]
      simp [h c (List.mem_cons_self _ _)]
  rw [h1]
  have h2 : l.reverse.dropWhile Char.isWhitespace = l.reverse := by
    cases hrev : l.reverse with
    | nil => rfl
    | cons c rest =>
      rw [List.dropWhile_cons, if_neg]
      have hc : c ∈ l := by
        have hcrev : c ∈ l.reverse := by rw [hrev]; exact List.mem_cons_self _ _
        exact List.mem_reverse.mp hcrev
      simp [h c hc]
  rw [h2, List.reverse_reverse]

theorem intChars_no_ws (i : Int) : ∀ c ∈ intChars i, c.isWhitespace = false := by
  unfold intChars
  split
  · intro c hc
    rcases List.mem_cons.mp hc with h | h
    · subst h; decide
    · exact digit_not_ws (natChars_all_digits _ c h)
  · intro c hc
    exact digit_not_ws (natChars_all_digits _ c hc)

theorem pyIntCore_minus (l : List Char) :
    pyIntCore ('-' :: l) = (pyDigits l).map (fun n => -(n : Int)) := by
  rw [pyIntCore.eq_def]
  simp

theorem pyIntCore_digit {c : Char} (hc : isDigitChar c = true) (rest : List Char) :
    pyIntCore (c :: rest) = (pyDigits (c :: rest)).map (fun n => (n : Int)) := by
  rw [pyIntCore.eq_def]
  simp only [digit_not_plus hc, digit_not_minus hc, if_false]

theorem pyInt_intChars (i : Int) : pyInt? (intChars i) = some i := by
  rw [pyInt?, stripWs_no_ws _ (intChars_no_ws i)]
  by_cases hneg : i < 0
  · rw [intChars, if_pos hneg, pyIntCore_minus, pyDigits_natChars]
    exact congrArg some (show -((i.natAbs : Int)) = i by omega)
  · rw [intChars, if_neg hneg]
    obtain ⟨c, rest, hcr⟩ : ∃ c rest, natChars i.toNat = c :: rest := by
      cases h : natChars i.toNat with
      | nil => exact absurd h (natChars_ne_nil _)
      | cons c rest => exact ⟨c, rest, rfl⟩
    have hc : isDigitChar c = true := by
      have := natChars_all_digits i.toNat
      rw [hcr] at this
      exact this c (List.mem_cons_self _ _)
    rw [hcr, pyIntCore_digit hc, ← hcr, pyDigits_natChars]
    exact congrArg some (show ((i.toNat : Int)) = i by omega)

theorem intChars_no_dot (i : Int) : ∀ c ∈ intChars i, c ≠ '.' := by
  unfold intChars
  split
  · intro c hc
    rcases List.mem_cons.mp hc with h | h
    · subst h; decide
    · exact digit_not_dot (natChars_all_digits _ c h)
  · intro c hc
    exact digit_not_dot (natChars_all_digits _ c hc)

theorem splitOnChar_ne_nil (c : Char) (l : List Char) : splitOnChar c l ≠ [] := by
  cases l with
  | nil => simp [splitOnChar]
  | cons x xs =>
    simp only [splitOnChar]
    split <;> simp

theorem splitOnChar_no_sep (c : Char) (l : List Char) (h : ∀ x ∈ l, x ≠ c) :
    splitOnChar c l = [l] := by
  induction l with
  | nil => rfl
  | cons x xs ih =>
    simp only [splitOnChar]
    rw [if_neg (by simpa using h x (List.mem_cons_self _ _)),
      ih (fun y hy => h y (List.mem_cons_of_mem _ hy))]
    rfl

theorem splitOnChar_append (c : Char) (l r : List Char) (h : ∀ x ∈ l, x ≠ c) :
    splitOnChar c (l ++ c :: r) = l :: splitOnChar c r := by
  induction l with
  | nil => simp [splitOnChar]
  | cons x xs ih =>
    rw [List.cons_append]
    simp only [splitOnChar]
    rw [if_neg (by simpa using h x (List.mem_cons_self _ _)),
      ih (fun y hy => h y (List.mem_cons_of_mem _ hy))]
    rfl

theorem parseVersion_formatVersion (a b c : Int) :
    parseVersion (formatVersion a b c) = some (a, b, c) := by
  have hdata : (formatVersion a b c).data =
      intChars a ++ '.' :: (intChars b ++ '.' :: intChars c) := by
    simp [formatVersion]
  rw [parseVersion, hdata,
    splitOnChar_append '.' (intChars a) _ (intChars_no_dot a),
    splitOnChar_append '.' (intChars b) _ (intChars_no_dot b),
    splitOnChar_no_sep '.' (intChars c) (intChars_no_dot c)]
  simp [pyInt_intChars]

/-- Characterization of `increment_version` on a parseable previous version:
the result is the carry arithmetic rendered through the f-string. -/
theorem increment_version_eq (v : String) (a b c : Int)
    (h : parseVersion v = some (a, b, c)) :
    increment_version v true =
      (if c + 1 > 9 then
        (if b + 1 > 9 then formatVersion (a + 1) 0 0 else formatVersion a (b + 1) 0)
       else formatVersion a b (c + 1)) := by
  simp only [increment_version, Bool.not_true, Bool.false_eq_true, if_false, h]

/-- C2: advancing a well-formed `major.minor.patch` version with changes
increments the patch with carry: a patch exceeding 9 resets to 0 and
increments the minor, and a minor then exceeding 9 resets to 0 and
increments the major; in particular `advance("1.2.9", true) = "1.3.0"` and
`advance("1.9.9", true) = "2.0.0"`. -/
theorem increment_version_carry (v : String) (a b c : Int)
    (h : parseVersion v = some (a, b, c)) :
    parseVersion (increment_version v true) =
      some (if c + 1 > 9 then
              (if b + 1 > 9 then (a + 1, 0, 0) else (a, b + 1, 0))
            else (a, b, c + 1)) ∧
    increment_version "1.2.9" true = "1.3.0" ∧
    increment_version "1.9.9" true = "2.0.0" := by
  refine ⟨?_, by decide, by decide⟩
  rw [increment_version_eq v a b c h]
  split_ifs <;> rw [parseVersion_formatVersion]

theorem increment_version_carry_witness :
    parseVersion "1.2.9" = some (1, 2, 9) ∧
    (parseVersion (increment_version "1.2.9" true) =
      some (if (9 : Int) + 1 > 9 then
              (if (2 : Int) + 1 > 9 then ((1 : Int) + 1, 0, 0) else (1, 2 + 1, 0))
            else (1, 2, 9 + 1)) ∧
     increment_version "1.2.9" true = "1.3.0" ∧
     increment_version "1.9.9" true = "2.0.0") :=
  ⟨by decide, increment_version_carry "1.2.9" 1 2 9 (by decide)⟩

/-- C3: `advance(v, false) = v` for every previous version string, and
`advance(v, true) ≠ v` for every well-formed previous version string: the
version changes exactly when the scan detected changes. -/
theorem increment_version_changes_version :
    (∀ v : String, increment_version v false = v) ∧
    (∀ (v : String) (a b c : Int), parseVersion v = some (a, b, c) →
      increment_version v true ≠ v) := by
  constructor
  · intro v
    rfl
  · intro v a b c h hv
    rw [increment_version_eq v a b c h] at hv
    split_ifs at hv with h9 h99
    · have hrt := parseVersion_formatVersion (a + 1) 0 0
      rw [hv, h] at hrt
      simp only [Option.some_inj, Prod.mk.injEq] at hrt
      omega
    · have hrt := parseVersion_formatVersion a (b + 1) 0
      rw [hv, h] at hrt
      simp only [Option.some_inj, Prod.mk.injEq] at hrt
      omega
    · have hrt := parseVersion_formatVersion a b (c + 1)
      rw [hv, h] at hrt
      simp only [Option.some_inj, Prod.mk.injEq] at hrt
      omega

theorem increment_version_changes_version_witness :
    increment_version "1.2.3" false = "1.2.3" ∧
    increment_version "1.2.3" true ≠ "1.2.3" :=
  ⟨increment_version_changes_version.1 "1.2.3",
   increment_version_changes_version.2 "1.2.3" 1 2 3 (by decide)⟩

/-- C8: advancing from a malformed previous version string (wrong shape or a
non-numeric component, i.e. the parse fails) with changes present returns the
fixed fallback `"1.0.1"`; in the model the function is total, matching the
`except ValueError` that prevents the parse failure from propagating. -/
theorem increment_version_malformed (v : String) (h : parseVersion v = none) :
    increment_version v true = "1.0.1" := by
  simp only [increment_version, Bool.not_true, Bool.false_eq_true, if_false, h]

theorem increment_version_malformed_witness :
    parseVersion "banana" = none ∧ increment_version "banana" true = "1.0.1" :=
  ⟨by decide, increment_version_malformed "banana" (by decide)⟩

/-- C9 (counterexample): the carry does not apply to the major component:
advancing `"9.9.9"` yields `"10.0.0"`, whose major component 10 is outside
the 0–9 digit range the claim asserts for every component. -/
theorem increment_version_major_not_digit :
    increment_version "9.9.9" true = "10.0.0" ∧
    parseVersion (increment_version "9.9.9" true) = some (10, 0, 0) ∧
    ¬ ((10 : Int) ≤ 9) :=
  ⟨by decide, by decide, by decide⟩

/-- C9 (amended): for a previous version whose components are each in 0–9,
advancing with changes keeps the minor and patch components in 0–9, but the
carry stops at the major component, which can grow to at most the previous
major plus one (so it can leave the digit range, reaching 10 from "9.9.9"). -/
theorem increment_version_component_range (v : String) (a b c : Int)
    (h : parseVersion v = some (a, b, c))
    (ha : 0 ≤ a ∧ a ≤ 9) (hb : 0 ≤ b ∧ b ≤ 9) (hc : 0 ≤ c ∧ c ≤ 9) :
    ∃ a2 b2 c2, parseVersion (increment_version v true) = some (a2, b2, c2) ∧
      0 ≤ a2 ∧ a2 ≤ a + 1 ∧ 0 ≤ b2 ∧ b2 ≤ 9 ∧ 0 ≤ c2 ∧ c2 ≤ 9 := by
  rw [increment_version_eq v a b c h]
  split_ifs with h9 h99
  · exact ⟨a + 1, 0, 0, parseVersion_formatVersion _ _ _, by omega, by omega,
      by omega, by omega, by omega, by omega⟩
  · exact ⟨a, b + 1, 0, parseVersion_formatVersion _ _ _, by omega, by omega,
      by omega, by omega, by omega, by omega⟩
  · exact ⟨a, b, c + 1, parseVersion_formatVersion _ _ _, by omega, by omega,
      by omega, by omega, by omega, by omega⟩

/-! ### Lemmas for the Diff Engine -/

theorem lookupId_isSome_eq (id : String) (l : List (String × Sig)) :
    (lookupId id l).isSome = decide (id ∈ l.map Prod.fst) := by
  induction l with
  | nil => simp [lookupId]
  | cons p rest ih =>
    obtain ⟨k, v⟩ := p
    simp only [lookupId]
    by_cases hk : k = id
    · subst hk
      simp
    · simp only [if_neg hk, ih, List.map_cons, List.mem_cons]
      have : ¬ id = k := fun he => hk he.symm
      simp [this]

theorem lookupId_isNone_eq (id : String) (l : List (String × Sig)) :
    (lookupId id l).isNone = !decide (id ∈ l.map Prod.fst) := by
  rw [← lookupId_isSome_eq]
  cases lookupId id l <;> rfl

theorem map_fst_filter (p : String → Bool) (l : List (String × Sig)) :
    (l.filter (fun e => p e.1)).map Prod.fst = (l.map Prod.fst).filter p := by
  induction l with
  | nil => rfl
  | cons e rest ih =>
    by_cases hp : p e.1 <;> simp [List.filter_cons, hp, ih]

theorem length_filter_add_not {α : Type} (p : α → Bool) (l : List α) :
    (l.filter p).length + (l.filter (fun a => !p a)).length = l.length := by
  induction l with
  | nil => rfl
  | cons a rest ih =>
    by_cases hp : p a <;> simp [List.filter_cons, hp] <;> omega

theorem length_filter_and_split {α : Type} (p q : α → Bool) (l : List α) :
    (l.filter (fun a => p a && q a)).length +
      (l.filter (fun a => p a && !q a)).length = (l.filter p).length := by
  induction l with
  | nil => rfl
  | cons a rest ih =>
    by_cases hp : p a <;> by_cases hq : q a <;>
      simp [List.filter_cons, hp, hq] <;> omega

theorem length_filterMap_isSome {α β : Type} (f : α → Option β) (l : List α) :
    (l.filterMap f).length = (l.filter (fun a => (f a).isSome)).length := by
  induction l with
  | nil => rfl
  | cons a rest ih =>
    cases hf : f a <;> simp [List.filterMap_cons, List.filter_cons, hf, ih]

theorem length_filter_mem_comm {k1 k2 : List String}
    (h1 : k1.Nodup) (h2 : k2.Nodup) :
    (k1.filter (fun a => decide (a ∈ k2))).length =
      (k2.filter (fun a => decide (a ∈ k1))).length := by
  have key : ∀ (x y : List String), x.Nodup →
      (x.filter (fun a => decide (a ∈ y))).length =
        (x.toFinset ∩ y.toFinset).card := by
    intro x y hx
    rw [← List.toFinset_card_of_nodup (hx.filter _)]
    congr 1
    ext a
    simp [List.mem_filter, Finset.mem_inter]
  rw [key k1 k2 h1, key k2 k1 h2, Finset.inter_comm]

theorem dictInsert_replace_keys (l : List (String × Sig)) (k : String) (v : Sig) :
    ((l.map (fun p => if p.1 = k then (k, v) else p)).map Prod.fst) =
      l.map Prod.fst := by
  induction l with
  | nil => rfl
  | cons p rest ih =>
    by_cases hp : p.1 = k <;> simp [hp, ih]

theorem dictInsert_keys_nodup {l : List (String × Sig)} (k : String) (v : Sig)
    (h : (l.map Prod.fst).Nodup) :
    ((dictInsert l k v).map Prod.fst).Nodup := by
  unfold dictInsert
  split
  · rw [dictInsert_replace_keys]
    exact h
  · next hns =>
    have hk : k ∉ l.map Prod.fst := by
      rw [lookupId_isSome_eq] at hns
      simpa using hns
    rw [List.map_append]
    simp [List.nodup_append, h, hk]

theorem extractGo_keys_nodup (sigs : List (String × Sig)) (children : List DNode) :
    (sigs.map Prod.fst).Nodup → ((extractGo sigs children).map Prod.fst).Nodup := by
  induction sigs, children using extractGo.induct with
  | case1 sigs =>
    intro h
    simpa [extractGo] using h
  | case2 sigs name id mt cat size dl mtime ctime rest ih =>
    intro h
    simp only [extractGo]
    exact ih (dictInsert_keys_nodup _ _ h)
  | case3 sigs n i dl de fc foc ts lu sub ft sd rest ih1 ih2 =>
    intro h
    simp only [extractGo]
    exact ih2 (ih1 h)

theorem extract_keys_nodup (children : List DNode) :
    ((extract_file_signatures children).map Prod.fst).Nodup :=
  extractGo_keys_nodup [] children (by simp)

/-- C1: the change detection partitions the id sets: `added` is exactly the
current ids absent from the previous map, `deleted` exactly the previous ids
absent from the current map, and with `unchanged` the common ids whose name,
size and modified time all agree,
`|added| + |unchanged| + |modified| = |currentSigs|` and
`|deleted| + |unchanged| + |modified| = |previousSigs|`. -/
theorem detect_changes_partition (current_children : List DNode)
    (previous_sigs : List (String × Sig))
    (hprev : (previous_sigs.map Prod.fst).Nodup) :
    let current_sigs := extract_file_signatures current_children
    let ch := detect_changes current_children previous_sigs
    let unchanged := unchangedSigs current_sigs previous_sigs
    (ch.added_files.map FileRef.id = (current_sigs.map Prod.fst).filter
      (fun id => !decide (id ∈ previous_sigs.map Prod.fst))) ∧
    (ch.deleted_files.map FileRef.id = (previous_sigs.map Prod.fst).filter
      (fun id => !decide (id ∈ current_sigs.map Prod.fst))) ∧
    ch.added_files.length + unchanged.length + ch.modified_files.length =
      current_sigs.length ∧
    ch.deleted_files.length + unchanged.length + ch.modified_files.length =
      previous_sigs.length := by
  intro cs ch unchanged
  have hcs : (cs.map Prod.fst).Nodup := extract_keys_nodup current_children
  have hadd : ch.added_files = (cs.filter
      (fun p => (lookupId p.1 previous_sigs).isNone)).map
      (fun p => { id := p.1, name := p.2.name, size := p.2.size : FileRef }) := rfl
  have hdel : ch.deleted_files = (previous_sigs.filter
      (fun p => (lookupId p.1 cs).isNone)).map
      (fun p => { id := p.1, name := p.2.name, size := p.2.size : FileRef }) := rfl
  -- id projection of added/deleted: the filtered key lists
  have hmapid : ∀ (l : List (String × Sig)),
      ((l.map (fun p => { id := p.1, name := p.2.name, size := p.2.size
        : FileRef })).map FileRef.id) = l.map Prod.fst := by
    intro l
    rw [List.map_map]
    rfl
  refine ⟨?_, ?_, ?_, ?_⟩
  · rw [hadd, hmapid,
      map_fst_filter (fun id => (lookupId id previous_sigs).isNone) cs]
    exact List.filter_congr (fun id _ => lookupId_isNone_eq id previous_sigs)
  · rw [hdel, hmapid,
      map_fst_filter (fun id => (lookupId id cs).isNone) previous_sigs]
    exact List.filter_congr (fun id _ => lookupId_isNone_eq id cs)
  all_goals {
    have hmod : ch.modified_files.length = (cs.filter
        (fun p => (lookupId p.1 previous_sigs).isSome &&
          !(match lookupId p.1 previous_sigs with
            | some q => p.2.name == q.name && p.2.size == q.size &&
                p.2.modified == q.modified
            | none => false))).length := by
      have : ch.modified_files.length = (cs.filter
          (fun p => (match lookupId p.1 previous_sigs with
            | none => (none : Option ModifiedEntry)
            | some prev =>
              if p.2.name != prev.name || p.2.size != prev.size ||
                  p.2.modified != prev.modified then
                some { id := p.1, name := p.2.name, old_name := prev.name,
                       old_modified := prev.modified,
                       new_modified := p.2.modified,
                       old_size := prev.size, new_size := p.2.size,
                       change_type := String.intercalate ", "
                         ((if p.2.name != prev.name then ["renamed"] else []) ++
                          (if p.2.size != prev.size then ["resized"] else []) ++
                          (if p.2.modified != prev.modified then ["modified"]
                           else [])) }
              else none).isSome)).length := length_filterMap_isSome _ cs
      rw [this]
      congr 1
      apply List.filter_congr
      intro p _
      cases hq : lookupId p.1 previous_sigs with
      | none => simp
      | some q =>
        by_cases hn : p.2.name == q.name <;>
          by_cases hs : p.2.size == q.size <;>
            by_cases hm : p.2.modified == q.modified <;>
              simp [bne, hn, hs, hm]
    have hunch : unchanged.length = (cs.filter
        (fun p => (lookupId p.1 previous_sigs).isSome &&
          (match lookupId p.1 previous_sigs with
            | some q => p.2.name == q.name && p.2.size == q.size &&
                p.2.modified == q.modified
            | none => false))).length := by
      unfold unchanged
      unfold unchangedSigs
      congr 1
      apply List.filter_congr
      intro p _
      cases hq : lookupId p.1 previous_sigs <;> simp
    have hsplit := length_filter_and_split
      (fun p => (lookupId p.1 previous_sigs).isSome)
      (fun p => (match lookupId p.1 previous_sigs with
        | some q => p.2.name == q.name && p.2.size == q.size &&
            p.2.modified == q.modified
        | none => false)) cs
    have hpart := length_filter_add_not
      (fun p => (lookupId p.1 previous_sigs).isSome) cs
    have hnone : (cs.filter (fun p => (lookupId p.1 previous_sigs).isNone)).length
        = (cs.filter (fun p =>
            !((lookupId p.1 previous_sigs).isSome))).length := by
      congr 1
      apply List.filter_congr
      intro p _
      cases lookupId p.1 previous_sigs <;> rfl
    have haddlen : ch.added_files.length =
        (cs.filter (fun p => (lookupId p.1 previous_sigs).isNone)).length := by
      rw [hadd, List.length_map]
    have hdellen : ch.deleted_files.length =
        (previous_sigs.filter (fun p => (lookupId p.1 cs).isNone)).length := by
      rw [hdel, List.length_map]
    -- common-id count seen from each side
    have hkeylen : ∀ (l1 l2 : List (String × Sig)),
        (l1.filter (fun p => (lookupId p.1 l2).isSome)).length =
          ((l1.map Prod.fst).filter (fun id => decide (id ∈ l2.map Prod.fst))).length := by
      intro l1 l2
      have := congrArg List.length (map_fst_filter
        (fun id => (lookupId id l2).isSome) l1)
      rw [List.length_map] at this
      rw [this]
      congr 1
      exact List.filter_congr (fun id _ => lookupId_isSome_eq id l2)
    have hcomm : (previous_sigs.filter (fun p => (lookupId p.1 cs).isSome)).length
        = (cs.filter (fun p => (lookupId p.1 previous_sigs).isSome)).length := by
      rw [hkeylen previous_sigs cs, hkeylen cs previous_sigs]
      exact length_filter_mem_comm hprev hcs
    have hpartprev := length_filter_add_not
      (fun p => (lookupId p.1 cs).isSome) previous_sigs
    have hnoneprev : (previous_sigs.filter
        (fun p => (lookupId p.1 cs).isNone)).length
        = (previous_sigs.filter (fun p => !((lookupId p.1 cs).isSome))).length := by
      congr 1
      apply List.filter_congr
      intro p _
      cases lookupId p.1 cs <;> rfl
    first
    | (rw [haddlen, hunch, hmod, hnone]
       omega)
    | (rw [hdellen, hunch, hmod, hnoneprev]
       omega)
  }

theorem increment_version_component_range_witness :
    parseVersion "9.9.9" = some (9, 9, 9) ∧
    (∃ a2 b2 c2, parseVersion (increment_version "9.9.9" true) = some (a2, b2, c2) ∧
      0 ≤ a2 ∧ a2 ≤ (9 : Int) + 1 ∧ 0 ≤ b2 ∧ b2 ≤ 9 ∧ 0 ≤ c2 ∧ c2 ≤ 9) :=
  ⟨by decide,
   increment_version_component_range "9.9.9" 9 9 9 (by decide) (by decide)
     (by decide) (by decide)⟩

theorem detect_changes_partition_witness :
    ((samplePrev.map Prod.fst).Nodup) ∧
    (let current_sigs := extract_file_signatures sampleTree
     let ch := detect_changes sampleTree samplePrev
     let unchanged := unchangedSigs current_sigs samplePrev
     (ch.added_files.map FileRef.id = (current_sigs.map Prod.fst).filter
       (fun id => !decide (id ∈ samplePrev.map Prod.fst))) ∧
     (ch.deleted_files.map FileRef.id = (samplePrev.map Prod.fst).filter
       (fun id => !decide (id ∈ current_sigs.map Prod.fst))) ∧
     ch.added_files.length + unchanged.length + ch.modified_files.length =
       current_sigs.length ∧
     ch.deleted_files.length + unchanged.length + ch.modified_files.length =
       samplePrev.length) :=
  ⟨by decide, detect_changes_partition sampleTree samplePrev (by decide)⟩

/-! ### Version Manager history: merge theorems -/

theorem truncate_eq {α : Type} (l : List α) :
    (if l.length > 50 then l.take 50 else l) = l.take 50 := by
  split
  · rfl
  · next hl =>
    have hle : l.length ≤ 50 := by omega
    exact (List.take_of_length_le hle).symm

theorem svh_insert_eq (history : List HistEntry) (e : HistEntry)
    (h : totalChangesOf e ≠ 0) :
    save_version_history history e =
      (e :: history.map normalizeEntry).take 50 := by
  simp only [save_version_history]
  cases hh : history.map normalizeEntry with
  | nil =>
    exact truncate_eq _
  | cons h0 t =>
    simp only [h, if_false]
    exact truncate_eq _

/-- C5: merging a change-bearing entry inserts it at the front of the
(key-normalized) history and truncates the result to at most 50 entries,
dropping the oldest; in particular, on a history of length 50 the result has
length exactly 50 and the new entry at its head. -/
theorem save_version_history_insert (history : List HistEntry) (e : HistEntry)
    (h : 0 < totalChangesOf e) :
    save_version_history history e =
      (e :: history.map normalizeEntry).take 50 ∧
    (save_version_history history e).head? = some e ∧
    (save_version_history history e).tail =
      (history.map normalizeEntry).take 49 ∧
    (save_version_history history e).length = min 50 (history.length + 1) ∧
    (history.length = 50 → (save_version_history history e).length = 50) := by
  have hch := svh_insert_eq history e (by omega)
  have hlen : (save_version_history history e).length =
      min 50 (history.length + 1) := by
    rw [hch, List.length_take, List.length_cons, List.length_map]
  refine ⟨hch, ?_, ?_, hlen, ?_⟩
  · rw [hch]
    rfl
  · rw [hch]
    rfl
  · intro h50
    rw [hlen, h50]
    decide

theorem save_version_history_insert_witness :
    0 < totalChangesOf oneChangeEntry ∧
    (save_version_history (List.replicate 50 zeroEntry) oneChangeEntry =
      (oneChangeEntry ::
        (List.replicate 50 zeroEntry).map normalizeEntry).take 50 ∧
     (save_version_history (List.replicate 50 zeroEntry)
       oneChangeEntry).head? = some oneChangeEntry ∧
     (save_version_history (List.replicate 50 zeroEntry) oneChangeEntry).tail =
       ((List.replicate 50 zeroEntry).map normalizeEntry).take 49 ∧
     (save_version_history (List.replicate 50 zeroEntry)
       oneChangeEntry).length =
       min 50 ((List.replicate 50 zeroEntry).length + 1) ∧
     ((List.replicate 50 zeroEntry).length = 50 →
      (save_version_history (List.replicate 50 zeroEntry)
        oneChangeEntry).length = 50)) :=
  ⟨by decide, save_version_history_insert (List.replicate 50 zeroEntry)
     oneChangeEntry (by decide)⟩

/-- C6 (counterexample): merging a zero-change entry into `[legacyEntry]`
rewrites the head entry's `version` field (the legacy-key normalization),
so a field other than `scan_date`/`stats` changes, contrary to the claim. -/
theorem save_version_history_noop_normalizes_keys :
    (save_version_history [legacyEntry] zeroEntry).map
      (fun en => en.version) = [some "1.0.2"] ∧
    legacyEntry.version = none ∧
    (save_version_history [legacyEntry] zeroEntry).map
      (fun en => en.current_version) = [none] ∧
    legacyEntry.current_version = some "1.0.2" :=
  ⟨rfl, rfl, rfl, rfl⟩

theorem svh_noop_eq (hh : HistEntry) (ht : List HistEntry) (e : HistEntry)
    (hz : totalChangesOf e = 0) :
    save_version_history (hh :: ht) e =
      ({ normalizeEntry hh with
         scan_date := e.scan_date,
         stats := if e.stats.isSome then e.stats
                  else (normalizeEntry hh).stats } ::
        ht.map normalizeEntry).take 50 := by
  simp only [save_version_history, List.map_cons]
  rw [if_pos hz]
  exact truncate_eq _

/-- C6 (amended): merging a zero-change entry into a non-empty history never
increases the history length; after the legacy version-key normalization the
merge applies to every entry, only the head's `scan_date` (and `stats`, when
the new entry carries stats) are overwritten — the head otherwise equals its
normalized original, and the tail is the normalized original tail (within
the 50-entry bound). -/
theorem save_version_history_noop (hh : HistEntry) (ht : List HistEntry)
    (e : HistEntry) (hz : totalChangesOf e = 0) :
    (save_version_history (hh :: ht) e).length = min 50 (ht.length + 1) ∧
    (save_version_history (hh :: ht) e).length ≤ (hh :: ht).length ∧
    (save_version_history (hh :: ht) e).head? =
      some { normalizeEntry hh with
             scan_date := e.scan_date,
             stats := if e.stats.isSome then e.stats
                      else (normalizeEntry hh).stats } ∧
    (save_version_history (hh :: ht) e).tail =
      (ht.map normalizeEntry).take 49 := by
  have hch := svh_noop_eq hh ht e hz
  have hlen : (save_version_history (hh :: ht) e).length =
      min 50 (ht.length + 1) := by
    rw [hch, List.length_take, List.length_cons, List.length_map]
  refine ⟨hlen, ?_, ?_, ?_⟩
  · rw [hlen, List.length_cons]
    omega
  · rw [hch]
    rfl
  · rw [hch]
    rfl

theorem save_version_history_noop_witness :
    totalChangesOf zeroEntry = 0 ∧
    ((save_version_history (legacyEntry :: []) zeroEntry).length =
       min 50 (([] : List HistEntry).length + 1) ∧
     (save_version_history (legacyEntry :: []) zeroEntry).length ≤
       (legacyEntry :: []).length ∧
     (save_version_history (legacyEntry :: []) zeroEntry).head? =
       some { normalizeEntry legacyEntry with
              scan_date := zeroEntry.scan_date,
              stats := if zeroEntry.stats.isSome then zeroEntry.stats
                       else (normalizeEntry legacyEntry).stats } ∧
     (save_version_history (legacyEntry :: []) zeroEntry).tail =
       (([] : List HistEntry).map normalizeEntry).take 49) :=
  ⟨by decide, save_version_history_noop legacyEntry [] zeroEntry (by decide)⟩

/-! ### Retry policy theorems -/

theorem retryGo_attempts {R : Type} (f : Nat → ApiOutcome R) :
    ∀ remaining attempt, (retryGo f remaining attempt).2 ≤ remaining := by
  intro remaining
  induction remaining with
  | zero =>
    intro attempt
    simp [retryGo]
  | succ n ih =>
    intro attempt
    have hrec := ih (attempt + 1)
    cases hf : f attempt <;> simp only [retryGo, hf] <;> (try split) <;>
      simp <;> omega

theorem retryGo_all_rate_limit {R : Type} (f : Nat → ApiOutcome R)
    (hf : ∀ i, f i = ApiOutcome.rateLimit) :
    ∀ remaining attempt,
      retryGo f remaining attempt = (CallResult.ok none, remaining) := by
  intro remaining
  induction remaining with
  | zero =>
    intro attempt
    simp [retryGo]
  | succ n ih =>
    intro attempt
    simp only [retryGo, hf attempt]
    rw [ih (attempt + 1)]

theorem retryGo_failure_raises {R : Type} (f : Nat → ApiOutcome R)
    (hf : ∀ i, isRetryableFailure (f i) = true) :
    ∀ remaining attempt, 0 < remaining →
      isRaised (retryGo f remaining attempt).1 = true := by
  intro remaining
  induction remaining with
  | zero =>
    intro attempt h
    omega
  | succ n ih =>
    intro attempt _
    cases hfa : f attempt with
    | success r =>
      have := hf attempt
      rw [hfa] at this
      simp [isRetryableFailure] at this
    | rateLimit =>
      have := hf attempt
      rw [hfa] at this
      simp [isRetryableFailure] at this
    | forbidden =>
      have := hf attempt
      rw [hfa] at this
      simp [isRetryableFailure] at this
    | httpError m =>
      simp only [retryGo, hfa]
      by_cases hn : n = 0
      · simp [hn, isRaised]
      · simp only [hn, if_false]
        exact ih (attempt + 1) (by omega)
    | exc m =>
      simp only [retryGo, hfa]
      by_cases hn : n = 0
      · simp [hn, isRaised]
      · simp only [hn, if_false]
        exact ih (attempt + 1) (by omega)

/-- C7 (counterexample): when every attempt hits the rate limit, the retry
loop exhausts all `maxRetries` attempts and returns Python's implicit `None`
instead of raising — the final-attempt failure does not propagate for the
rate-limit kind. -/
theorem rate_limit_exhaustion_returns_none :
    make_api_call_with_retry 3
      (fun _ => (ApiOutcome.rateLimit : ApiOutcome Unit)) =
      (CallResult.ok none, 3) ∧
    isRaised (make_api_call_with_retry 3
      (fun _ => (ApiOutcome.rateLimit : ApiOutcome Unit))).1 = false :=
  ⟨rfl, rfl⟩

/-- C7 (amended): at most `maxRetries` attempts are made; a final-attempt
failure of the generic kinds (an `HttpError` other than 429/403, or any
other exception) propagates to the caller; but a run of rate-limit failures
exhausting the budget returns `None` (an empty result) instead of raising,
a permission-denied response returns `None` after one attempt, and an error
from the folder-description fetch degrades to the empty string. -/
theorem make_api_call_retry_policy :
    (∀ (R : Type) (mr : Nat) (f : Nat → ApiOutcome R),
      (make_api_call_with_retry mr f).2 ≤ mr) ∧
    (∀ (R : Type) (mr : Nat) (f : Nat → ApiOutcome R),
      (∀ i, f i = ApiOutcome.rateLimit) →
      make_api_call_with_retry mr f = (CallResult.ok none, mr)) ∧
    (∀ (R : Type) (mr : Nat) (f : Nat → ApiOutcome R),
      0 < mr → f 0 = ApiOutcome.forbidden →
      make_api_call_with_retry mr f = (CallResult.ok none, 1)) ∧
    (∀ (R : Type) (mr : Nat) (f : Nat → ApiOutcome R),
      0 < mr → (∀ i, isRetryableFailure (f i) = true) →
      isRaised (make_api_call_with_retry mr f).1 = true) ∧
    (∀ (mr : Nat) (f : Nat → ApiOutcome (Option String)) (m : String),
      (make_api_call_with_retry mr f).1 = CallResult.raised m →
      get_folder_description mr f = "") := by
  refine ⟨?_, ?_, ?_, ?_, ?_⟩
  · intro R mr f
    exact retryGo_attempts f mr 0
  · intro R mr f hf
    exact retryGo_all_rate_limit f hf mr 0
  · intro R mr f hmr hf0
    cases mr with
    | zero => omega
    | succ n => simp [make_api_call_with_retry, retryGo, hf0]
  · intro R mr f hmr hf
    exact retryGo_failure_raises f hf mr 0 hmr
  · intro mr f m hm
    simp [get_folder_description, hm]

theorem make_api_call_retry_policy_witness :
    ((make_api_call_with_retry 3
       (fun _ => (ApiOutcome.rateLimit : ApiOutcome Unit))).2 ≤ 3) ∧
    (make_api_call_with_retry 2
      (fun _ => (ApiOutcome.rateLimit : ApiOutcome Unit)) =
      (CallResult.ok none, 2)) ∧
    (make_api_call_with_retry 3
      (fun _ => (ApiOutcome.forbidden : ApiOutcome Unit)) =
      (CallResult.ok none, 1)) ∧
    (isRaised (make_api_call_with_retry 3
      (fun _ => (ApiOutcome.exc "boom" : ApiOutcome Unit))).1 = true) ∧
    (get_folder_description 1 (fun _ => ApiOutcome.exc "boom") = "") :=
  ⟨make_api_call_retry_policy.1 Unit 3 _,
   make_api_call_retry_policy.2.1 Unit 2 _ (fun _ => rfl),
   make_api_call_retry_policy.2.2.1 Unit 3 _ (by omega) rfl,
   make_api_call_retry_policy.2.2.2.1 Unit 3 _ (by omega) (fun _ => rfl),
   make_api_call_retry_policy.2.2.2.2 1 _ "Unexpected error: boom" (by decide)⟩

/-! ### Tree Scanner lemmas -/

theorem addDist_zero (d : SizeDist) : addDist d ⟨0, 0, 0, 0⟩ = d := by
  cases d
  simp [addDist]

theorem zero_addDist (d : SizeDist) : addDist ⟨0, 0, 0, 0⟩ d = d := by
  cases d
  simp [addDist]

theorem addDist_assoc (a b c : SizeDist) :
    addDist (addDist a b) c = addDist a (addDist b c) := by
  cases a
  cases b
  cases c
  simp [addDist]
  omega

theorem bumpDist_eq_addDist (d : SizeDist) (q : ℚ) :
    bumpDist d q = addDist d (bumpDist ⟨0, 0, 0, 0⟩ q) := by
  cases d
  unfold bumpDist
  split_ifs <;> simp [addDist]

/-- One run of the item loop, characterized: the loop only ever adds to the
incoming accumulator, the produced contribution does not depend on the
accumulator, and the contribution equals the spec-side fold over the
produced child nodes (with the aggregation invariant holding recursively
inside every produced folder node). -/
theorem scanGo_char (stats₀ : FolderStats) (cs₀ : List DNode)
    (l : List RItem) :
    ∃ (dfc dfo : Nat) (dsz : ℚ) (dty : String → Nat) (dd : SizeDist)
      (nodes : List DNode),
      (∀ (stats : FolderStats) (cs : List DNode),
        (scanGo stats cs l).fileCount = stats.fileCount + dfc ∧
        (scanGo stats cs l).folderCount = stats.folderCount + dfo ∧
        (scanGo stats cs l).totalSizeMB = round2 (stats.totalSizeMB + dsz) ∧
        (scanGo stats cs l).children = cs ++ nodes ∧
        (∀ c, (scanGo stats cs l).fileTypes c = stats.fileTypes c + dty c) ∧
        (scanGo stats cs l).sizeDistribution =
          addDist stats.sizeDistribution dd) ∧
      dfc = aggFileCount nodes ∧ dfo = aggFolderCount nodes ∧
      dsz = aggSizeMB nodes ∧ (∀ c, dty c = aggTypes nodes c) ∧
      dd = aggDist nodes ∧ aggInvariantList nodes := by
  induction stats₀, cs₀, l using scanGo.induct with
  | case1 stats₀ cs₀ =>
    refine ⟨0, 0, 0, fun _ => 0, ⟨0, 0, 0, 0⟩, [], ?_, rfl, rfl, rfl,
      fun c => rfl, rfl, trivial⟩
    intro stats cs
    refine ⟨?_, ?_, ?_, ?_, fun c => ?_, ?_⟩ <;>
      simp [scanGo, finalizeStats, addDist_zero]
  | case2 stats₀ cs₀ fid fname desc sub rest subtree node stats' ih1 ih2 =>
    obtain ⟨dfc1, dfo1, dsz1, dty1, dd1, nodes1, hm1, hfc1, hfo1, hsz1, hty1,
      hdd1, hinv1⟩ := ih1
    obtain ⟨dfc2, dfo2, dsz2, dty2, dd2, nodes2, hm2, hfc2, hfo2, hsz2, hty2,
      hdd2, hinv2⟩ := ih2
    obtain ⟨s1, s2, s3, s4, s5, s6⟩ := hm1 initStats []
    refine ⟨(scanGo initStats [] sub).fileCount + dfc2,
      (1 + (scanGo initStats [] sub).folderCount) + dfo2,
      (scanGo initStats [] sub).totalSizeMB + dsz2,
      fun c => (scanGo initStats [] sub).fileTypes c + dty2 c,
      addDist (scanGo initStats [] sub).sizeDistribution dd2,
      DNode.folder fname fid
        ("https://drive.google.com/drive/folders/" ++ fid) desc
        (scanGo initStats [] sub).fileCount
        (scanGo initStats [] sub).folderCount
        (scanGo initStats [] sub).totalSizeMB
        (scanGo initStats [] sub).lastUpdated
        (scanGo initStats [] sub).children
        (scanGo initStats [] sub).fileTypes
        (scanGo initStats [] sub).sizeDistribution :: nodes2,
      ?_, ?_, ?_, ?_, ?_, ?_, ?_⟩
    · intro stats cs
      simp only [scanGo]
      refine ⟨?_, ?_, ?_, ?_, fun c => ?_, ?_⟩
      · rw [(hm2 _ _).1]
        dsimp only
        omega
      · rw [(hm2 _ _).2.1]
        dsimp only
        omega
      · rw [(hm2 _ _).2.2.1]
        dsimp only
        congr 1
        ring
      · rw [(hm2 _ _).2.2.2.1]
        simp
      · rw [(hm2 _ _).2.2.2.2.1 c]
        dsimp only
        omega
      · rw [(hm2 _ _).2.2.2.2.2]
        dsimp only
        rw [addDist_assoc]
    · simp [aggFileCount, nodeFileCount, hfc2]
    · simp [aggFolderCount, nodeFolderCount, hfo2]
    · simp [aggSizeMB, nodeSizeMB, hsz2]
    · intro c
      simp [aggTypes, nodeTypes, hty2 c]
    · simp [aggDist, nodeDist, hdd2]
    · refine ⟨?_, hinv2⟩
      simp only [aggInvariant]
      refine ⟨?_, ?_, ?_, fun c => ?_, ?_, ?_⟩
      · rw [s1, s4, hfc1]
        simp [initStats, aggFileCount]
      · rw [s2, s4, hfo1]
        simp [initStats, aggFolderCount]
      · rw [s3, s4, hsz1]
        simp [initStats, aggSizeMB]
      · rw [s5 c, s4, hty1 c]
        simp [initStats, aggTypes]
      · rw [s6, s4, hdd1]
        simp [initStats, zero_addDist, aggDist]
      · rw [s4]
        simpa using hinv1
  | case3 stats₀ cs₀ fid fname mt size mtime ctime link rest size_bytes
      size_mb file_type modified node stats' ih2 =>
    obtain ⟨dfc2, dfo2, dsz2, dty2, dd2, nodes2, hm2, hfc2, hfo2, hsz2, hty2,
      hdd2, hinv2⟩ := ih2
    refine ⟨1 + dfc2, dfo2,
      ((sizeBytesOf size : Int) : ℚ) / (1024 * 1024) + dsz2,
      fun c => (if c = categorize_file mt then 1 else 0) + dty2 c,
      addDist (bumpDist ⟨0, 0, 0, 0⟩
        (((sizeBytesOf size : Int) : ℚ) / (1024 * 1024))) dd2,
      DNode.file fname fid mt (categorize_file mt)
        (format_file_size (some (sizeBytesOf size)))
        (link.getD ("https://drive.google.com/file/d/" ++ fid ++ "/view"))
        (safe_datetime_format (pyOrStr mtime ctime))
        (safe_datetime_format (some (ctime.getD ""))) :: nodes2,
      ?_, ?_, ?_, ?_, ?_, ?_, ?_⟩
    · intro stats cs
      simp only [scanGo]
      refine ⟨?_, ?_, ?_, ?_, fun c => ?_, ?_⟩
      · rw [(hm2 _ _).1]
        dsimp only
        omega
      · rw [(hm2 _ _).2.1]
      · rw [(hm2 _ _).2.2.1]
        dsimp only
        congr 1
        ring
      · rw [(hm2 _ _).2.2.2.1]
        simp
      · rw [(hm2 _ _).2.2.2.2.1 c]
        dsimp only
        by_cases hc : c = categorize_file mt <;> (simp [hc]; try omega)
      · rw [(hm2 _ _).2.2.2.2.2]
        dsimp only
        rw [bumpDist_eq_addDist, addDist_assoc]
    · simp [aggFileCount, nodeFileCount, hfc2]
    · simp [aggFolderCount, nodeFolderCount, hfo2]
    · simp [aggSizeMB, nodeSizeMB, hsz2, format_file_size]
    · intro c
      simp [aggTypes, nodeTypes, hty2 c]
    · simp [aggDist, nodeDist, hdd2, format_file_size]
    · exact ⟨trivial, hinv2⟩

/-- C4: for every folder node of any tree the scanner returns, the stored
aggregates equal the fold over its children: `fileCount` is the sum of
child-folder fileCounts plus the number of direct file children, and
`folderCount`, `totalSizeMB` (through the 2-decimal rounding the code
applies), the category histogram and the size-bucket histogram aggregate
analogously; the same holds recursively inside every nested folder node. -/
theorem get_folder_tree_aggregation (listing : List RItem) :
    (get_folder_tree listing).fileCount =
      aggFileCount (get_folder_tree listing).children ∧
    (get_folder_tree listing).folderCount =
      aggFolderCount (get_folder_tree listing).children ∧
    (get_folder_tree listing).totalSizeMB =
      round2 (aggSizeMB (get_folder_tree listing).children) ∧
    (∀ c, (get_folder_tree listing).fileTypes c =
      aggTypes (get_folder_tree listing).children c) ∧
    (get_folder_tree listing).sizeDistribution =
      aggDist (get_folder_tree listing).children ∧
    aggInvariantList (get_folder_tree listing).children := by
  obtain ⟨dfc, dfo, dsz, dty, dd, nodes, hm, hfc, hfo, hsz, hty, hdd, hinv⟩ :=
    scanGo_char initStats [] listing
  obtain ⟨h1, h2, h3, h4, h5, h6⟩ := hm initStats []
  refine ⟨?_, ?_, ?_, fun c => ?_, ?_, ?_⟩ <;> simp only [get_folder_tree]
  · rw [h1, h4, hfc]
    simp [initStats]
  · rw [h2, h4, hfo]
    simp [initStats]
  · rw [h3, h4, hsz]
    simp [initStats]
  · rw [h5 c, h4, hty c]
    simp [initStats]
  · rw [h6, h4, hdd]
    simp [initStats, zero_addDist]
  · rw [h4]
    simpa using hinv

theorem round2_zero : round2 0 = 0 := by
  norm_num [round2, roundHalfEven]

theorem round4_zero : round4 0 = 0 := by
  norm_num [round4, roundHalfEven]

theorem format_file_size_none_zero : format_file_size none = ⟨0, 0, 0, 0⟩ := by
  simp [format_file_size, round2_zero, round4_zero]

theorem format_file_size_zero : format_file_size (some 0) = ⟨0, 0, 0, 0⟩ := by
  simp [format_file_size, round2_zero, round4_zero]

/-- C10: a remote file entry whose size field is absent or null is handled
totally and treated as 0 bytes: the scan succeeds (the model is a total
function), the file contributes nothing to the folder's `totalSizeMB`, it is
counted in the `small` size bucket and nowhere else, and its formatted size
reports 0 for bytes, kb, mb and gb. -/
theorem get_folder_tree_no_size (listing : List RItem)
    (fid fname mt : String) (mtime ctime link : Option String) :
    (get_folder_tree
        (RItem.rfile fid fname mt none mtime ctime link :: listing)).totalSizeMB =
      (get_folder_tree listing).totalSizeMB ∧
    (get_folder_tree
        (RItem.rfile fid fname mt none mtime ctime link ::
          listing)).sizeDistribution.small =
      (get_folder_tree listing).sizeDistribution.small + 1 ∧
    (get_folder_tree
        (RItem.rfile fid fname mt none mtime ctime link ::
          listing)).sizeDistribution.medium =
      (get_folder_tree listing).sizeDistribution.medium ∧
    (get_folder_tree
        (RItem.rfile fid fname mt none mtime ctime link ::
          listing)).sizeDistribution.large =
      (get_folder_tree listing).sizeDistribution.large ∧
    (get_folder_tree
        (RItem.rfile fid fname mt none mtime ctime link ::
          listing)).sizeDistribution.huge =
      (get_folder_tree listing).sizeDistribution.huge ∧
    (get_folder_tree
        (RItem.rfile fid fname mt none mtime ctime link :: listing)).fileCount =
      (get_folder_tree listing).fileCount + 1 ∧
    (get_folder_tree
        (RItem.rfile fid fname mt none mtime ctime link :: listing)).children =
      DNode.file fname fid mt (categorize_file mt) (format_file_size (some 0))
        (link.getD ("https://drive.google.com/file/d/" ++ fid ++ "/view"))
        (safe_datetime_format (pyOrStr mtime ctime))
        (safe_datetime_format (some (ctime.getD ""))) ::
        (get_folder_tree listing).children ∧
    format_file_size none = ⟨0, 0, 0, 0⟩ ∧
    format_file_size (some 0) = ⟨0, 0, 0, 0⟩ := by
  obtain ⟨dfc, dfo, dsz, dty, dd, nodes, hm, hfc, hfo, hsz, hty, hdd, hinv⟩ :=
    scanGo_char initStats [] listing
  obtain ⟨h1, h2, h3, h4, h5, h6⟩ := hm initStats []
  refine ⟨?_, ?_, ?_, ?_, ?_, ?_, ?_, format_file_size_none_zero,
    format_file_size_zero⟩ <;> simp only [get_folder_tree, scanGo]
  · rw [(hm _ _).2.2.1, h3]
    congr 1
    norm_num [initStats, sizeBytesOf]
  · rw [(hm _ _).2.2.2.2.2, h6]
    norm_num [addDist, initStats, bumpDist, sizeBytesOf]
    omega
  · rw [(hm _ _).2.2.2.2.2, h6]
    norm_num [addDist, initStats, bumpDist, sizeBytesOf]
  · rw [(hm _ _).2.2.2.2.2, h6]
    norm_num [addDist, initStats, bumpDist, sizeBytesOf]
  · rw [(hm _ _).2.2.2.2.2, h6]
    norm_num [addDist, initStats, bumpDist, sizeBytesOf]
  · rw [(hm _ _).1, h1]
    norm_num [initStats]
    omega
  · rw [(hm _ _).2.2.2.1, h4]
    simp [sizeBytesOf]

end DriveScan
